import Mathlib

/-!
Shallow embedding of the TCWINGOAISAGAR_BOT repository (Python) in Lean 4,
and verification of the frozen claims about it.

Embedded components:
* `src/utils.py` — the active-message registry (`register_active_message`,
  `unregister_active_message`, `clear_old_messages`).
* `src/web_scraper.py` — the remote fetch (`get_wingo_results`,
  `get_next_period_id`) with the HTTP layer modelled as an explicit input.
* `src/database.py` — the two tables (`wingo_results`, `wingo_predictions`)
  modelled as lists of rows, and the operations `get_latest_results`,
  `get_next_period_id`, `add_new_result`, `save_prediction`,
  `update_predictions`.
* `src/fixed_prediction.py` — the data-flow core of
  `generate_formatted_predictions` (which data source feeds the next period
  id, the displayed results and the prediction label).
* `src/prediction_logic.py` — `analyze_patterns` and the decision logic of
  `generate_prediction`, with the `random` calls passed in as explicit
  arguments.
* `src/bot.py` — the per-duration update loop of
  `update_messages_for_duration`, with the Telegram edit call modelled as a
  boolean oracle and the Python index-based list iteration made explicit.
-/

namespace Wingo

/-! The Registry (`src/utils.py`)

`active_messages` is a dict with exactly the keys `"30 SEC"` and `"1 MIN"`,
each holding a list of `(chat_id, message_id)` pairs.  We model the key set
as an inductive type and the dict as a structure with one list per key. -/

/-- A `(chat_id, message_id)` pair, as registered in `active_messages`. -/
abbrev Handle := Int × Int

/-- The two duration keys of the `active_messages` dict. -/
inductive Dur where
  | sec30
  | min1
deriving DecidableEq

/-- The `active_messages` dict of `src/utils.py`: one list of handles per
duration key. -/
structure Registry where
  sec30 : List Handle
  min1 : List Handle
deriving DecidableEq

/-- Read one key of the registry. -/
def Registry.getList (r : Registry) : Dur → List Handle
  | .sec30 => r.sec30
  | .min1 => r.min1

/-- Write one key of the registry. -/
def Registry.setList (r : Registry) : Dur → List Handle → Registry
  | .sec30, l => { r with sec30 := l }
  | .min1, l => { r with min1 := l }

/-- Embeds `register_active_message` (utils.py): appends the handle to the
list of the duration. -/
def register_active_message (r : Registry) (d : Dur) (h : Handle) : Registry :=
  r.setList d (r.getList d ++ [h])

/-- Embeds `unregister_active_message` (utils.py): if the handle is present,
removes its first occurrence (Python `list.remove`). -/
def unregister_active_message (r : Registry) (d : Dur) (h : Handle) : Registry :=
  if h ∈ r.getList d then r.setList d ((r.getList d).erase h) else r

/-- The per-list body of `clear_old_messages` (utils.py): when the list
holds more than `max_messages = 20` handles, keep the Python slice
`[-20:]`, i.e. the last 20 entries. -/
def clearList (l : List Handle) : List Handle :=
  if l.length > 20 then l.drop (l.length - 20) else l

/-- Embeds `clear_old_messages` (utils.py): applies the cap to every duration key
of the dict. -/
def clear_old_messages (r : Registry) : Registry :=
  { sec30 := clearList r.sec30, min1 := clearList r.min1 }

/-! The Remote fetch (`src/web_scraper.py`)

The outcome of the HTTP request is an explicit input: either a raised exception,
or a response with a status code and a parsed JSON body (`none` standing
for a body whose parse raises, which the surrounding `except` also turns
into the empty result). -/

/-- The fixed endpoint `API_URL` of web_scraper.py. -/
def API_URL : String := "https://wapi.m2.app/api/game/recordsAsFast"

/-- The query parameters actually sent by `get_wingo_results`:
`DEFAULT_PARAMS` with `count` overwritten by the `limit` argument and `id`
overwritten by the duration-dependent game id. -/
structure ReqParams where
  id : Int
  count : Int
  language : String
deriving DecidableEq

/-- The parameter dict built in `get_wingo_results` lines 49-57: start from
`DEFAULT_PARAMS`, set `count = limit`, set `id = 4` when the duration is
`"30SEC"` and `3` otherwise. -/
def buildParams (limit : Int) (duration : String) : ReqParams :=
  { id := if duration == "30SEC" then 4 else 3
    count := limit
    language := "en" }

/-- The full GET request issued by `get_wingo_results`: endpoint plus query
parameters. -/
def requestOf (limit : Int) (duration : String) : String × ReqParams :=
  (API_URL, buildParams limit duration)

/-- One record of the `data` array of the remote JSON body, with the fields the
code reads (`record.get(...)` defaults are applied at the use sites). -/
structure ApiRecord where
  colorType : Option Int
  sizeType : Option Int
  issueNumber : Option Int
  createdTime : Option Int
deriving DecidableEq

/-- A successfully parsed remote JSON body: the truthiness of
`data.get("success")` and the optional `data` array. -/
structure ApiBody where
  success : Bool
  data : Option (List ApiRecord)
deriving DecidableEq

/-- Outcome of the HTTP GET in `get_wingo_results`: a raised exception, or
a response with a status code and (if it parses) a JSON body. -/
inductive HttpResult where
  | exn
  | ok (status : Int) (body : Option ApiBody)
deriving DecidableEq

/-- One entry of the list returned by `get_wingo_results` (the fields built
in lines 88-94; the formatted timestamp is kept as the raw
`createdTime`). -/
structure WebResult where
  period_id : Int
  result : String
  color : String
  size : String
  createdTime : Int
deriving DecidableEq

/-- The per-record remapping of `get_wingo_results` lines 70-94. -/
def convertRecord (record : ApiRecord) : WebResult :=
  let color := if record.colorType == some 1 then "RED"
    else if record.colorType == some 2 then "GREEN" else ""
  let resultText0 := color
  let resultText := if record.sizeType == some 1 then "BIG"
    else if record.sizeType == some 2 then "SMALL" else resultText0
  { period_id := record.issueNumber.getD 0
    result := resultText
    color := color
    size := if record.sizeType == some 1 then "BIG"
      else if record.sizeType == some 2 then "SMALL" else ""
    createdTime := record.createdTime.getD 0 }

/-- Embeds `get_wingo_results` (web_scraper.py): on a 200 response whose body has
a truthy `success` and a `data` key, remap each record; on any other
response, malformed body, or exception, return the empty list. -/
def get_wingo_results (http : HttpResult) : List WebResult :=
  match http with
  | .exn => []
  | .ok status body =>
    if status == 200 then
      match body with
      | some b =>
        if b.success then
          match b.data with
          | some records => records.map convertRecord
          | none => []
        else []
      | none => []
    else []

/-- The failure cases of the remote fetch named by claim C4: a raised
exception, a non-200 status, or a 200 response whose body fails to parse,
has a falsy `success`, or lacks the `data` key. -/
def HttpFailure : HttpResult → Prop
  | .exn => True
  | .ok status body =>
    status ≠ 200 ∨ body = none ∨
      ∃ b, body = some b ∧ (b.success = false ∨ b.data = none)

/-- Embeds `web_scraper.get_next_period_id`: fetch one record; on success return
its period id plus one, otherwise the fallback 1000. -/
def ws_get_next_period_id (http : HttpResult) : Int :=
  match get_wingo_results http with
  | [] => 1000
  | r :: _ => r.period_id + 1

/-! The Local store (`src/database.py`)

The two SQLite tables are modelled as lists of rows in insertion order
(the order an un-`ORDER BY`ed scan of this append-only table yields).
Timestamps are the strings the code writes with `strftime`. -/

/-- One row of the `wingo_results` table. -/
structure ResultRow where
  period_id : Int
  duration : String
  result : String
  color : String
  size : String
  timestamp : String
deriving DecidableEq

/-- One row of the `wingo_predictions` table.  `result` and `is_win`
default to SQL NULL, modelled as `none`. -/
structure PredRow where
  id : Int
  period_id : Int
  duration : String
  prediction : String
  result : Option String
  is_win : Option Bool
  timestamp : String
deriving DecidableEq

/-- The `wingo_predictions` table together with the AUTOINCREMENT counter
that supplies the next fresh `id`. -/
structure PredDB where
  rows : List PredRow
  nextId : Int
deriving DecidableEq

/-- The whole database: both tables. -/
structure WingoDB where
  results : List ResultRow
  preds : PredDB
deriving DecidableEq

/-- The `WHERE period_id = ? AND duration = ?` filter used by
`save_prediction` and `update_predictions`. -/
def keyMatch (pid : Int) (dur : String) (r : PredRow) : Bool :=
  r.period_id == pid && r.duration == dur

/-- Stable insertion into a list sorted by `period_id` descending
(`ORDER BY period_id DESC`). -/
def insertDesc (r : ResultRow) : List ResultRow → List ResultRow
  | [] => [r]
  | x :: xs => if x.period_id ≥ r.period_id then x :: insertDesc r xs else r :: x :: xs

/-- Sort by `period_id` descending. -/
def sortDesc : List ResultRow → List ResultRow
  | [] => []
  | x :: xs => insertDesc x (sortDesc xs)

/-- Embeds `database.get_latest_results`: rows of the given duration, ordered by
`period_id` descending, truncated to `limit`. -/
def db_get_latest_results (db : WingoDB) (duration : String) (limit : Nat) : List ResultRow :=
  (sortDesc (db.results.filter (fun r => r.duration == duration))).take limit

/-- Embeds `MAX(period_id)` over a list of rows: the SQL `MAX` is `NULL` on an
empty selection. -/
def maxPeriod : List ResultRow → Option Int
  | [] => none
  | r :: rs => some ((maxPeriod rs).elim r.period_id (max r.period_id))

/-- Embeds `database.get_next_period_id`: `(MAX(period_id) or 789) + 1` for the
given duration.  The Python `or` replaces both `None` (no rows) and the
falsy maximum `0` by 789. -/
def db_get_next_period_id (db : WingoDB) (duration : String) : Int :=
  let m := maxPeriod (db.results.filter (fun r => r.duration == duration))
  (match m with
   | none => 789
   | some v => if v == 0 then 789 else v) + 1

/-- Tests whether the first character list starts the second. -/
def startsChars : List Char → List Char → Bool
  | [], _ => true
  | _ :: _, [] => false
  | a :: as, b :: bs => a == b && startsChars as bs

/-- Tests whether the first character list occurs contiguously inside the
second (Python string containment `needle in haystack`). -/
def substrChars (needle : List Char) : List Char → Bool
  | [] => startsChars needle []
  | b :: bs => startsChars needle (b :: bs) || substrChars needle bs

/-- The win test of `update_predictions` line 273: Python substring
containment `prediction in actual_result or actual_result in prediction`. -/
def winTest (prediction actual : String) : Bool :=
  substrChars prediction.toList actual.toList ||
    substrChars actual.toList prediction.toList

/-- The body of the `for pred_id, prediction in predictions:` loop of
`update_predictions`: each SQL `UPDATE ... WHERE id = ?` rewrites every row
carrying that id. -/
def applyUpdates (actual : String) (rows : List PredRow) : List (Int × String) → List PredRow
  | [] => rows
  | u :: us =>
    applyUpdates actual
      (rows.map (fun r =>
        if r.id == u.1 then
          { r with result := some actual, is_win := some (winTest u.2 actual) }
        else r)) us

/-- Embeds `database.update_predictions`: select the `(id, prediction)` pairs of
the rows matching the period and duration whose `result` is NULL, then run
one `UPDATE ... WHERE id = ?` per selected pair. -/
def update_predictions (db : PredDB) (pid : Int) (dur : String) (actual : String) : PredDB :=
  let selected :=
    (db.rows.filter (fun r => keyMatch pid dur r && r.result.isNone)).map
      (fun r => (r.id, r.prediction))
  { db with rows := applyUpdates actual db.rows selected }

/-- Embeds `database.save_prediction`: if a row for `(period_id, duration)`
exists, rewrite its `prediction` and `timestamp` in place and return the
id of the selected row; otherwise insert a fresh row (NULL `result` and
`is_win`) and return its AUTOINCREMENT id. -/
def save_prediction (db : PredDB) (pid : Int) (dur : String) (pred : String)
    (now : String) : PredDB × Int :=
  match (db.rows.filter (keyMatch pid dur)).head? with
  | some existing =>
    ({ db with
        rows := db.rows.map (fun r =>
          if keyMatch pid dur r then { r with prediction := pred, timestamp := now } else r) },
      existing.id)
  | none =>
    ({ rows := db.rows ++
        [{ id := db.nextId, period_id := pid, duration := dur, prediction := pred,
           result := none, is_win := none, timestamp := now }]
       nextId := db.nextId + 1 },
      db.nextId)

/-- Embeds `database.add_new_result`: insert the outcome under the next period id
for its duration, then settle the open predictions of that period.
Returns the new database and the period id. -/
def add_new_result (db : WingoDB) (duration result color size : String)
    (now : String) : WingoDB × Int :=
  let pid := db_get_next_period_id db duration
  let db1 : WingoDB :=
    { db with results := db.results ++
        [{ period_id := pid, duration := duration, result := result,
           color := color, size := size, timestamp := now }] }
  ({ db1 with preds := update_predictions db1.preds pid duration result }, pid)

/-! The Formatter data flow (`src/fixed_prediction.py`)

`generate_formatted_predictions` first tries the web scraper; when that
yields results they feed the display and the prediction, otherwise the
local store does.  We embed the data-selection core: which next period id,
which displayed rows, which prediction label, and the `save_prediction`
effect.  (The purely cosmetic string formatting, and the display-only
timestamp field, are not modelled.) -/

/-- A displayed recent result (the dict built in lines 25-30 of
fixed_prediction.py, timestamp omitted). -/
structure DisplayRow where
  period_id : Int
  result : String
  color : String
deriving DecidableEq

/-- Display form of a remote result. -/
def displayOfWeb (r : WebResult) : DisplayRow :=
  { period_id := r.period_id, result := r.result, color := r.color }

/-- Display form of a local `wingo_results` row. -/
def displayOfLocal (r : ResultRow) : DisplayRow :=
  { period_id := r.period_id, result := r.result, color := r.color }

/-- The alternating rule of fixed_prediction.py (lines 38-43 and the
identical fallback copies): `GREEN` after `RED`, `RED` after any other
color-branch value, `SMALL` after `BIG`, `BIG` after any other
size-branch value. -/
def nextPredictionOfLast (last : String) : String :=
  if last == "RED" || last == "GREEN" then
    if last == "RED" then "GREEN" else "RED"
  else
    if last == "BIG" then "SMALL" else "BIG"

/-- The outputs of the data-selection core of
`generate_formatted_predictions`. -/
structure GfpOut where
  next_period : Int
  displayed : List DisplayRow
  prediction : String
  db : WingoDB
deriving DecidableEq

/-- Data-selection core of `fixed_prediction.generate_formatted_predictions`:
`httpMain` is the HTTP outcome of the main `ws.get_wingo_results` call and
`httpNext` that of the fetch inside `ws.get_next_period_id`; `randChoice`
is the value `random.choice` would return in the no-data fallback.  When
the web results are non-empty the next period id comes from the web and
the prediction alternates on the last web result; otherwise the next
period id and the displayed rows come from the local store. -/
def gfp_core (httpMain httpNext : HttpResult) (db : WingoDB) (duration : String)
    (limit : Nat) (randChoice : String) (now : String) : GfpOut :=
  let webResults := get_wingo_results httpMain
  let wsNext := ws_get_next_period_id httpNext
  match webResults with
  | w :: ws =>
    let nextPrediction := nextPredictionOfLast w.result
    { next_period := wsNext
      displayed := (w :: ws).map displayOfWeb
      prediction := nextPrediction
      db := { db with preds := (save_prediction db.preds wsNext duration nextPrediction now).1 } }
  | [] =>
    let nextPeriod := db_get_next_period_id db duration
    let results := db_get_latest_results db duration limit
    let nextPrediction :=
      match results with
      | r :: _ => nextPredictionOfLast r.result
      | [] => randChoice
    { next_period := nextPeriod
      displayed := results.map displayOfLocal
      prediction := nextPrediction
      db := { db with preds := (save_prediction db.preds nextPeriod duration nextPrediction now).1 } }

/-! The Pattern-based generator (`src/prediction_logic.py`)

The calls of `generate_prediction` into `random` are passed in explicitly:
`shouldWin` is the outcome of `should_win()` and `randChoice` the value
`random.choice(prediction_types)` would return. -/

/-- The counter dict built by `analyze_patterns`. -/
structure Patterns where
  red : Nat
  green : Nat
  big : Nat
  small : Nat
  alternating_color : Nat
  alternating_size : Nat
  streak_color : Nat
  streak_size : Nat
deriving DecidableEq

/-- Embeds `analyze_patterns` (prediction_logic.py lines 41-81): count colors
(everything non-RED counts as GREEN) and sizes (everything non-BIG counts
as SMALL), then compare each adjacent pair of rows. -/
def analyze_patterns (results : List ResultRow) : Patterns :=
  let counted := results.foldl
    (fun (p : Patterns) r =>
      let p := if r.color == "RED" then { p with red := p.red + 1 }
        else { p with green := p.green + 1 }
      if r.size == "BIG" then { p with big := p.big + 1 }
      else { p with small := p.small + 1 })
    { red := 0, green := 0, big := 0, small := 0, alternating_color := 0,
      alternating_size := 0, streak_color := 0, streak_size := 0 }
  (results.zip results.tail).foldl
    (fun (p : Patterns) pr =>
      let p := if pr.2.color != pr.1.color
        then { p with alternating_color := p.alternating_color + 1 }
        else { p with streak_color := p.streak_color + 1 }
      if pr.2.size != pr.1.size
      then { p with alternating_size := p.alternating_size + 1 }
      else { p with streak_size := p.streak_size + 1 })
    counted

/-- Lookup of a pattern count by prediction-type label (the
`patterns[p_type]` accesses of the most-common loop). -/
def Patterns.count (p : Patterns) (label : String) : Nat :=
  if label == "RED" then p.red
  else if label == "GREEN" then p.green
  else if label == "BIG" then p.big
  else p.small

/-- The `for p_type in prediction_types:` loop of generate_prediction
lines 117-123: start from `highest_count = 0` and the random choice; a
strictly greater count replaces the prediction. -/
def mostCommon (p : Patterns) (randChoice : String) : String :=
  (["RED", "GREEN", "BIG", "SMALL"].foldl
    (fun (acc : Nat × String) label =>
      if p.count label > acc.1 then (p.count label, label) else acc)
    (0, randChoice)).2

/-- The prediction chosen by `prediction_logic.generate_prediction`
(lines 83-133) given the recent results (newest first, as
`get_latest_results` returns them) and the random draws. -/
def generate_prediction_label (recent : List ResultRow) (shouldWin : Bool)
    (randChoiceCommon randChoiceLose : String) : String :=
  let patterns := analyze_patterns recent
  if shouldWin then
    if patterns.streak_color > patterns.alternating_color then
      match recent with
      | r :: _ => if r.color == "RED" then "RED" else "GREEN"
      | [] => "GREEN"
    else if patterns.streak_size > patterns.alternating_size then
      match recent with
      | r :: _ => if r.size == "BIG" then "BIG" else "SMALL"
      | [] => "SMALL"
    else mostCommon patterns randChoiceCommon
  else randChoiceLose

/-! The Bot update loop (`src/bot.py`)

`update_messages_for_duration` iterates `for chat_id, message_id in
active_messages:` over the live registry list, and on a failed edit calls
`unregister_active_message`, which removes the handle from that same list
while the iteration is in progress.  The CPython list iterator keeps a bare
index: at each step it reads the element at the current index of the
current list contents, then increments the index.  `editOk` is the oracle
telling which `edit_message_text` calls succeed.  The function returns the
final list together with the handles whose edit was attempted. -/

/-- The `for` loop of `update_messages_for_duration` (bot.py lines
227-240) over the live list, from iterator index `i`, accumulating the
attempted handles. -/
def updateLoop (editOk : Handle → Bool) (i : Nat) (msgs attempted : List Handle) :
    List Handle × List Handle :=
  if h : i < msgs.length then
    let m := msgs.get ⟨i, h⟩
    if editOk m then
      updateLoop editOk (i + 1) msgs (attempted ++ [m])
    else
      updateLoop editOk (i + 1) (msgs.erase m) (attempted ++ [m])
  else
    (msgs, attempted)
termination_by msgs.length - i
decreasing_by
  · omega
  · have hm : msgs.get ⟨i, h⟩ ∈ msgs := List.get_mem msgs i h
    have := List.length_erase_of_mem hm
    omega

/-- The registry effect of `update_messages_for_duration` on one
list of one duration (the Python `list.remove` inside
`unregister_active_message` coincides with `List.erase` because the
removed handle is always a member). -/
def update_messages_for_duration (editOk : Handle → Bool) (msgs : List Handle) :
    List Handle × List Handle :=
  updateLoop editOk 0 msgs []

/-! The theorems about the claims. -/

/-- Executable uniqueness check for the predictions table: no two rows
share a `(period_id, duration)` pair. -/
def keyUniqueList : List PredRow → Bool
  | [] => true
  | r :: rs =>
    rs.all (fun q => !(q.period_id == r.period_id && q.duration == r.duration)) &&
      keyUniqueList rs

/-- The invariant stated by the spec: at most one prediction row per
`(period, category)` pair. -/
abbrev predKeyUnique (db : PredDB) : Prop :=
  keyUniqueList db.rows = true

/-- Unfolds the key filter to propositional equalities. -/
lemma keyMatch_iff {pid : Int} {dur : String} {r : PredRow} :
    keyMatch pid dur r = true ↔ (r.period_id = pid ∧ r.duration = dur) := by
  simp [keyMatch]

/-- Under the uniqueness invariant, two rows of the table with the same
key are the same row. -/
lemma keyUnique_eq {l : List PredRow} (h : keyUniqueList l = true)
    {r q : PredRow} (hr : r ∈ l) (hq : q ∈ l)
    (hkey : r.period_id = q.period_id ∧ r.duration = q.duration) : r = q := by
  induction l with
  | nil => simp at hr
  | cons x xs ih =>
    simp only [keyUniqueList, Bool.and_eq_true, List.all_eq_true] at h
    obtain ⟨hall, hrest⟩ := h
    rcases List.mem_cons.mp hr with rfl | hr2 <;> rcases List.mem_cons.mp hq with rfl | hq2
    · rfl
    · have hb := hall q hq2
      simp only [Bool.not_eq_eq_eq_not, Bool.not_true, Bool.and_eq_false_imp] at hb
      simp only [beq_iff_eq, beq_eq_false_iff_ne] at hb
      exact absurd (hb hkey.1.symm) (by simpa using hkey.2.symm)
    · have hb := hall r hr2
      simp only [Bool.not_eq_eq_eq_not, Bool.not_true, Bool.and_eq_false_imp] at hb
      simp only [beq_iff_eq, beq_eq_false_iff_ne] at hb
      exact absurd (hb hkey.1) (by simpa using hkey.2)
    · exact ih hrest hr2 hq2

/-- Appending a row whose key is fresh preserves the uniqueness check. -/
lemma keyUniqueList_append_singleton {l : List PredRow} {x : PredRow}
    (h : keyUniqueList l = true)
    (hx : ∀ r ∈ l, ¬(r.period_id = x.period_id ∧ r.duration = x.duration)) :
    keyUniqueList (l ++ [x]) = true := by
  induction l with
  | nil => simp [keyUniqueList]
  | cons y ys ih =>
    simp only [List.cons_append, keyUniqueList, Bool.and_eq_true, List.all_eq_true] at h ⊢
    obtain ⟨hall, hrest⟩ := h
    refine ⟨?_, ih hrest (fun r hr => hx r (List.mem_cons_of_mem _ hr))⟩
    intro q hq
    rcases List.mem_append.mp hq with hq1 | hq2
    · exact hall q hq1
    · have hqx : q = x := by simpa using hq2
      subst hqx
      have hy := hx y (List.mem_cons_self _ _)
      simp only [Bool.not_eq_eq_eq_not, Bool.not_true, Bool.and_eq_false_imp,
        beq_iff_eq, beq_eq_false_iff_ne]
      intro h1
      exact fun h2 => hy ⟨h1.symm, h2.symm⟩

/-- A key-preserving row rewrite preserves the uniqueness check. -/
lemma keyUniqueList_map_preserve {l : List PredRow} {g : PredRow → PredRow}
    (hg : ∀ r, (g r).period_id = r.period_id ∧ (g r).duration = r.duration)
    (h : keyUniqueList l = true) : keyUniqueList (l.map g) = true := by
  induction l with
  | nil => rfl
  | cons y ys ih =>
    simp only [List.map_cons, keyUniqueList, Bool.and_eq_true, List.all_eq_true] at h ⊢
    obtain ⟨hall, hrest⟩ := h
    refine ⟨?_, ih hrest⟩
    intro q hq
    rcases List.mem_map.mp hq with ⟨q0, hq0, rfl⟩
    have h1 := hg q0
    have h2 := hg y
    have h3 := hall q0 hq0
    simp only [Bool.not_eq_eq_eq_not, Bool.not_true, Bool.and_eq_false_imp,
      beq_iff_eq, beq_eq_false_iff_ne] at h3 ⊢
    rw [h1.1, h1.2, h2.1, h2.2]
    exact h3

/-- Every period id in a result list is bounded by the `maxPeriod` of the
list. -/
lemma le_maxPeriod (l : List ResultRow) (r : ResultRow) (hr : r ∈ l) :
    ∀ m, maxPeriod l = some m → r.period_id ≤ m := by
  induction l with
  | nil => simp at hr
  | cons x xs ih =>
    intro m hm
    cases hx : maxPeriod xs with
    | none =>
      simp only [maxPeriod, hx, Option.elim, Option.some.injEq] at hm
      rcases List.mem_cons.mp hr with rfl | hr2
      · omega
      · cases xs with
        | nil => simp at hr2
        | cons y ys => simp [maxPeriod] at hx
    | some mx =>
      simp only [maxPeriod, hx, Option.elim, Option.some.injEq] at hm
      rcases List.mem_cons.mp hr with rfl | hr2
      · subst hm; exact le_max_left _ _
      · have hle := ih hr2 mx hx
        subst hm
        exact le_trans hle (le_max_right _ _)

/-- C1: at most one open prediction per `(period, category)`.  Under the
uniqueness invariant, `save_prediction` preserves the invariant; when a
row for the pair exists it keeps the table size, returns the id of that
row, rewrites exactly that one prediction and timestamp, and keeps every
other row; it inserts a fresh row only when no row for the pair exists. -/
theorem save_prediction_unique (db : PredDB) (pid : Int) (dur : String) (pred now : String)
    (hinv : predKeyUnique db) :
    predKeyUnique (save_prediction db pid dur pred now).1 ∧
    (∀ r ∈ db.rows, keyMatch pid dur r = true →
      (save_prediction db pid dur pred now).1.rows.length = db.rows.length ∧
      (save_prediction db pid dur pred now).2 = r.id ∧
      ({ r with prediction := pred, timestamp := now } : PredRow) ∈
        (save_prediction db pid dur pred now).1.rows ∧
      (∀ q ∈ db.rows, keyMatch pid dur q = false →
        q ∈ (save_prediction db pid dur pred now).1.rows)) ∧
    ((∀ r ∈ db.rows, keyMatch pid dur r = false) →
      (save_prediction db pid dur pred now).1.rows =
        db.rows ++ [⟨db.nextId, pid, dur, pred, none, none, now⟩] ∧
      (save_prediction db pid dur pred now).2 = db.nextId) := by
  cases hsel : (db.rows.filter (keyMatch pid dur)).head? with
  | some r0 =>
    have hr0f : r0 ∈ db.rows.filter (keyMatch pid dur) :=
      List.mem_of_mem_head? (by rw [hsel]; exact Option.mem_some_self r0)
    have hr0 := List.mem_filter.mp hr0f
    have hsave : save_prediction db pid dur pred now =
        ({ db with rows := db.rows.map (fun r =>
            if keyMatch pid dur r then { r with prediction := pred, timestamp := now }
            else r) }, r0.id) := by
      unfold save_prediction
      rw [hsel]
    refine ⟨?_, ?_, ?_⟩
    · rw [hsave]
      refine keyUniqueList_map_preserve ?_ hinv
      intro r
      by_cases hk : keyMatch pid dur r = true <;> simp [hk]
    · intro r hr hk
      have hreq : r = r0 := by
        refine keyUnique_eq hinv hr hr0.1 ?_
        have h1 := keyMatch_iff.mp hk
        have h2 := keyMatch_iff.mp hr0.2
        exact ⟨h1.1.trans h2.1.symm, h1.2.trans h2.2.symm⟩
      refine ⟨by rw [hsave]; simp, by rw [hsave, hreq], ?_, ?_⟩
      · rw [hsave]
        exact List.mem_map.mpr ⟨r, hr, by simp [hk]⟩
      · intro q hq hqk
        rw [hsave]
        exact List.mem_map.mpr ⟨q, hq, by simp [hqk]⟩
    · intro hall
      have := hall r0 hr0.1
      rw [hr0.2] at this
      exact absurd this (by simp)
  | none =>
    have hfil : db.rows.filter (keyMatch pid dur) = [] := List.head?_eq_none_iff.mp hsel
    have hnomatch : ∀ r ∈ db.rows, keyMatch pid dur r = false := by
      intro r hr
      by_cases hk : keyMatch pid dur r = true
      · have : r ∈ db.rows.filter (keyMatch pid dur) := List.mem_filter.mpr ⟨hr, hk⟩
        rw [hfil] at this
        simp at this
      · simpa using hk
    have hsave : save_prediction db pid dur pred now =
        ({ rows := db.rows ++ [⟨db.nextId, pid, dur, pred, none, none, now⟩],
           nextId := db.nextId + 1 }, db.nextId) := by
      unfold save_prediction
      rw [hsel]
    refine ⟨?_, ?_, ?_⟩
    · rw [hsave]
      refine keyUniqueList_append_singleton hinv ?_
      intro r hr hkey
      have hk := keyMatch_iff.mpr hkey
      rw [hnomatch r hr] at hk
      exact Bool.false_ne_true hk
    · intro r hr hk
      have := hnomatch r hr
      rw [hk] at this
      exact absurd this (by simp)
    · intro _
      exact ⟨by rw [hsave], by rw [hsave]⟩

/-- Witness for C1: saving over an existing `(805, "1 MIN")` row keeps one
row, rewrites the prediction in place, and returns the existing id 1. -/
theorem save_prediction_unique_witness :
    (save_prediction ⟨[⟨1, 805, "1 MIN", "RED", none, none, "t"⟩], 2⟩
      805 "1 MIN" "GREEN" "u").2 = 1 ∧
    (save_prediction ⟨[⟨1, 805, "1 MIN", "RED", none, none, "t"⟩], 2⟩
      805 "1 MIN" "GREEN" "u").1.rows.length = 1 ∧
    (⟨1, 805, "1 MIN", "GREEN", none, none, "u"⟩ : PredRow) ∈
      (save_prediction ⟨[⟨1, 805, "1 MIN", "RED", none, none, "t"⟩], 2⟩
        805 "1 MIN" "GREEN" "u").1.rows := by
  have h := save_prediction_unique ⟨[⟨1, 805, "1 MIN", "RED", none, none, "t"⟩], 2⟩
    805 "1 MIN" "GREEN" "u" (by decide)
  have h2 := h.2.1 ⟨1, 805, "1 MIN", "RED", none, none, "t"⟩ (by decide) (by decide)
  exact ⟨h2.2.1, h2.1, h2.2.2.1⟩

/-- Positions holding a row whose id avoids every update pair are left
unchanged by the update loop. -/
lemma applyUpdates_getElem (actual : String) (upds : List (Int × String)) :
    ∀ (rows : List PredRow) (i : Nat) (r : PredRow),
      rows[i]? = some r → (∀ u ∈ upds, r.id ≠ u.1) →
      (applyUpdates actual rows upds)[i]? = some r := by
  induction upds with
  | nil =>
    intro rows i r h _
    exact h
  | cons u us ih =>
    intro rows i r h hu
    simp only [applyUpdates]
    apply ih
    · rw [List.getElem?_map, h]
      have hne : ¬(r.id == u.1) = true := by
        simpa using hu u (List.mem_cons_self _ _)
      simp only [Option.map_some']
      rw [if_neg hne]
    · intro v hv
      exact hu v (List.mem_cons_of_mem _ hv)

/-- C2: results are written at most once.  When the table ids are unique
(the AUTOINCREMENT primary key), any row whose `result` is already
non-NULL is left untouched, at its position, by every later
`update_predictions` call, whatever period, category and actual result
that call carries. -/
theorem update_predictions_write_once (db : PredDB) (pid : Int) (dur actual : String)
    (hids : (db.rows.map PredRow.id).Nodup) :
    ∀ (i : Nat) (r : PredRow), db.rows[i]? = some r → r.result ≠ none →
      (update_predictions db pid dur actual).rows[i]? = some r := by
  intro i r hi hres
  have hrmem : r ∈ db.rows := List.getElem?_mem hi
  show (applyUpdates actual db.rows
      ((db.rows.filter (fun q => keyMatch pid dur q && q.result.isNone)).map
        (fun q => (q.id, q.prediction))))[i]? = some r
  apply applyUpdates_getElem actual _ db.rows i r hi
  intro u hu
  rcases List.mem_map.mp hu with ⟨q, hqf, rfl⟩
  rcases List.mem_filter.mp hqf with ⟨hq, hqcond⟩
  have hqnone : q.result = none := by
    have h2 := (Bool.and_eq_true _ _).mp hqcond
    simpa [Option.isNone_iff_eq_none] using h2.2
  intro heq
  have hrq : r = q := List.inj_on_of_nodup_map hids hrmem hq heq
  rw [hrq, hqnone] at hres
  exact hres rfl

/-- Witness for C2: a settled row (result RED, win) survives a later
update call for its own period unchanged. -/
theorem update_predictions_write_once_witness :
    (update_predictions ⟨[⟨1, 805, "1 MIN", "RED", some "RED", some true, "t"⟩], 2⟩
      805 "1 MIN" "GREEN").rows[0]? =
      some ⟨1, 805, "1 MIN", "RED", some "RED", some true, "t"⟩ :=
  update_predictions_write_once
    ⟨[⟨1, 805, "1 MIN", "RED", some "RED", some true, "t"⟩], 2⟩
    805 "1 MIN" "GREEN" (by decide) 0
    ⟨1, 805, "1 MIN", "RED", some "RED", some true, "t"⟩ (by decide) (by decide)

/-- C3: period identifiers are monotonic per category.  Whatever the state
of the outcomes store, `add_new_result` records the new outcome under a
period identifier strictly greater than the period identifier of every row
already stored for that duration. -/
theorem add_new_result_monotonic (db : WingoDB) (duration result color size now : String) :
    ∀ row ∈ db.results, row.duration = duration →
      row.period_id < (add_new_result db duration result color size now).2 := by
  intro row hrow hdur
  have h2 : (add_new_result db duration result color size now).2 =
      db_get_next_period_id db duration := rfl
  have hval : db_get_next_period_id db duration =
      (match maxPeriod (db.results.filter (fun r => r.duration == duration)) with
       | none => 789
       | some v => if v == 0 then 789 else v) + 1 := rfl
  have hmem : row ∈ db.results.filter (fun r => r.duration == duration) := by
    rw [List.mem_filter]
    exact ⟨hrow, by simp [hdur]⟩
  cases hmp : maxPeriod (db.results.filter (fun r => r.duration == duration)) with
  | none =>
    cases hfil : db.results.filter (fun r => r.duration == duration) with
    | nil => rw [hfil] at hmem; simp at hmem
    | cons a as => rw [hfil] at hmp; simp [maxPeriod] at hmp
  | some m =>
    have hle := le_maxPeriod _ row hmem m hmp
    rw [h2, hval, hmp]
    show row.period_id < (if m == 0 then 789 else m) + 1
    by_cases h0 : m = 0
    · subst h0
      rw [if_pos (by decide)]
      omega
    · rw [if_neg (by simpa using h0)]
      omega

/-- Witness for C3: with a single stored row of period id 805 for
`"1 MIN"`, the newly recorded outcome gets a strictly larger period id. -/
theorem add_new_result_monotonic_witness :
    (805 : Int) < (add_new_result
      (⟨[⟨805, "1 MIN", "RED", "RED", "BIG", "t"⟩], ⟨[], 1⟩⟩ : WingoDB)
      "1 MIN" "GREEN" "GREEN" "SMALL" "u").2 :=
  add_new_result_monotonic
    (⟨[⟨805, "1 MIN", "RED", "RED", "BIG", "t"⟩], ⟨[], 1⟩⟩ : WingoDB)
    "1 MIN" "GREEN" "GREEN" "SMALL" "u"
    ⟨805, "1 MIN", "RED", "RED", "BIG", "t"⟩ (by decide) rfl

/-- Any of the failure cases of the remote fetch yields the empty result
list. -/
lemma get_wingo_results_failure {h : HttpResult} (hf : HttpFailure h) :
    get_wingo_results h = [] := by
  cases h with
  | exn => rfl
  | ok status body =>
    simp only [HttpFailure] at hf
    rcases hf with h1 | h2 | ⟨b, hb, hcase⟩
    · have hs : (status == 200) = false := by simpa using h1
      simp [get_wingo_results, hs]
    · subst h2
      by_cases hs : status == 200 <;> simp [get_wingo_results, hs]
    · subst hb
      rcases hcase with hsucc | hdata
      · by_cases hs : status == 200 <;> simp [get_wingo_results, hs, hsucc]
      · by_cases hs : status == 200 <;> cases hbs : b.success <;>
          simp [get_wingo_results, hs, hbs, hdata]

/-- C4: remote failures are never fatal and degrade to the local store.
On every failing fetch (exception, non-200 status, or malformed body)
`get_wingo_results` returns the empty list, and the formatter then takes
both the next period identifier and the displayed recent results from the
local store. -/
theorem remote_failure_degrades_to_local (hm hn : HttpResult) (db : WingoDB)
    (duration : String) (limit : Nat) (randChoice now : String)
    (hf : HttpFailure hm) :
    get_wingo_results hm = [] ∧
    (gfp_core hm hn db duration limit randChoice now).next_period =
      db_get_next_period_id db duration ∧
    (gfp_core hm hn db duration limit randChoice now).displayed =
      (db_get_latest_results db duration limit).map displayOfLocal := by
  have hempty := get_wingo_results_failure hf
  refine ⟨hempty, ?_, ?_⟩ <;> simp [gfp_core, hempty]

/-- Witness for C4: a 500 response makes the formatter read the next
period id (806) and the displayed row from the seeded local store. -/
theorem remote_failure_degrades_to_local_witness :
    get_wingo_results (.ok 500 none) = [] ∧
    (gfp_core (.ok 500 none) .exn
        (⟨[⟨805, "1 MIN", "RED", "RED", "BIG", "t"⟩], ⟨[], 1⟩⟩ : WingoDB)
        "1 MIN" 10 "RED" "u").next_period = 806 ∧
    (gfp_core (.ok 500 none) .exn
        (⟨[⟨805, "1 MIN", "RED", "RED", "BIG", "t"⟩], ⟨[], 1⟩⟩ : WingoDB)
        "1 MIN" 10 "RED" "u").displayed = [⟨805, "RED", "RED"⟩] := by
  have h := remote_failure_degrades_to_local (.ok 500 none) .exn
    (⟨[⟨805, "1 MIN", "RED", "RED", "BIG", "t"⟩], ⟨[], 1⟩⟩ : WingoDB)
    "1 MIN" 10 "RED" "u" (Or.inl (by decide))
  refine ⟨h.1, ?_, ?_⟩
  · rw [h.2.1]; decide
  · rw [h.2.2]; decide

/-- Loop exit: once the iterator index reaches the current list length the
loop returns. -/
lemma updateLoop_stop (e : Handle → Bool) (i : Nat) (msgs att : List Handle)
    (h : ¬ i < msgs.length) : updateLoop e i msgs att = (msgs, att) := by
  rw [updateLoop, dif_neg h]

/-- Loop step on a successful edit: the list is unchanged and the handle
is recorded as attempted. -/
lemma updateLoop_step_ok (e : Handle → Bool) (i : Nat) (msgs att : List Handle)
    (h : i < msgs.length) (he : e (msgs.get ⟨i, h⟩) = true) :
    updateLoop e i msgs att = updateLoop e (i + 1) msgs (att ++ [msgs.get ⟨i, h⟩]) := by
  rw [updateLoop, dif_pos h, if_pos he]

/-- Loop step on a failed edit: the handle is removed from the live list
(first occurrence, as Python `list.remove`) and recorded as attempted. -/
lemma updateLoop_step_fail (e : Handle → Bool) (i : Nat) (msgs att : List Handle)
    (h : i < msgs.length) (he : e (msgs.get ⟨i, h⟩) = false) :
    updateLoop e i msgs att =
      updateLoop e (i + 1) (msgs.erase (msgs.get ⟨i, h⟩)) (att ++ [msgs.get ⟨i, h⟩]) := by
  rw [updateLoop, dif_pos h, if_neg (by simp only [List.get_eq_getElem] at he; simp [he])]

/-- The accumulator of the loop only collects appended handles: running
from `att` equals running from the empty accumulator with `att`
prepended. -/
lemma updateLoop_att_split (e : Handle → Bool) :
    ∀ (n i : Nat) (msgs att : List Handle), msgs.length - i ≤ n →
      updateLoop e i msgs att =
        ((updateLoop e i msgs []).1, att ++ (updateLoop e i msgs []).2) := by
  intro n
  induction n with
  | zero =>
    intro i msgs att hn
    have h : ¬ i < msgs.length := by omega
    rw [updateLoop_stop e i msgs att h, updateLoop_stop e i msgs [] h]
    simp
  | succ n ih =>
    intro i msgs att hn
    by_cases h : i < msgs.length
    · cases he : e (msgs.get ⟨i, h⟩) with
      | true =>
        rw [updateLoop_step_ok e i msgs att h he, updateLoop_step_ok e i msgs [] h he]
        rw [ih (i + 1) msgs (att ++ [msgs.get ⟨i, h⟩]) (by omega),
          ih (i + 1) msgs ([] ++ [msgs.get ⟨i, h⟩]) (by omega)]
        simp
      | false =>
        have hm : msgs.get ⟨i, h⟩ ∈ msgs := List.get_mem msgs i h
        have hlen := List.length_erase_of_mem hm
        rw [updateLoop_step_fail e i msgs att h he, updateLoop_step_fail e i msgs [] h he]
        rw [ih (i + 1) (msgs.erase (msgs.get ⟨i, h⟩)) (att ++ [msgs.get ⟨i, h⟩]) (by omega),
          ih (i + 1) (msgs.erase (msgs.get ⟨i, h⟩)) ([] ++ [msgs.get ⟨i, h⟩]) (by omega)]
        simp
    · rw [updateLoop_stop e i msgs att h, updateLoop_stop e i msgs [] h]
      simp

/-- The final list of the loop is a sublist of the starting list: entries
are only ever removed, never added or reordered. -/
lemma updateLoop_sublist (e : Handle → Bool) :
    ∀ (n i : Nat) (msgs att : List Handle), msgs.length - i ≤ n →
      List.Sublist (updateLoop e i msgs att).1 msgs := by
  intro n
  induction n with
  | zero =>
    intro i msgs att hn
    rw [updateLoop_stop e i msgs att (by omega)]
  | succ n ih =>
    intro i msgs att hn
    by_cases h : i < msgs.length
    · cases he : e (msgs.get ⟨i, h⟩) with
      | true =>
        rw [updateLoop_step_ok e i msgs att h he]
        exact ih (i + 1) msgs _ (by omega)
      | false =>
        have hm : msgs.get ⟨i, h⟩ ∈ msgs := List.get_mem msgs i h
        have hlen := List.length_erase_of_mem hm
        rw [updateLoop_step_fail e i msgs att h he]
        exact (ih (i + 1) (msgs.erase (msgs.get ⟨i, h⟩)) _ (by omega)).trans
          (List.erase_sublist _ _)
    · rw [updateLoop_stop e i msgs att h]

/-- Every handle the loop attempts comes from the starting list. -/
lemma updateLoop_att_mem (e : Handle → Bool) :
    ∀ (n i : Nat) (msgs : List Handle), msgs.length - i ≤ n →
      ∀ m ∈ (updateLoop e i msgs []).2, m ∈ msgs := by
  intro n
  induction n with
  | zero =>
    intro i msgs hn m hm
    rw [updateLoop_stop e i msgs [] (by omega)] at hm
    simp at hm
  | succ n ih =>
    intro i msgs hn m hm
    by_cases h : i < msgs.length
    · cases he : e (msgs.get ⟨i, h⟩) with
      | true =>
        rw [updateLoop_step_ok e i msgs [] h he,
          updateLoop_att_split e n (i + 1) msgs ([] ++ [msgs.get ⟨i, h⟩]) (by omega)] at hm
        rcases List.mem_append.mp hm with h1 | h2
        · have : m = msgs.get ⟨i, h⟩ := by simpa using h1
          rw [this]
          exact List.get_mem msgs i h
        · exact ih (i + 1) msgs (by omega) m h2
      | false =>
        have hmm : msgs.get ⟨i, h⟩ ∈ msgs := List.get_mem msgs i h
        have hlen := List.length_erase_of_mem hmm
        rw [updateLoop_step_fail e i msgs [] h he,
          updateLoop_att_split e n (i + 1) (msgs.erase (msgs.get ⟨i, h⟩))
            ([] ++ [msgs.get ⟨i, h⟩]) (by omega)] at hm
        rcases List.mem_append.mp hm with h1 | h2
        · have : m = msgs.get ⟨i, h⟩ := by simpa using h1
          rw [this]
          exact hmm
        · exact List.mem_of_mem_erase
            (ih (i + 1) (msgs.erase (msgs.get ⟨i, h⟩)) (by omega) m h2)
    · rw [updateLoop_stop e i msgs [] h] at hm
      simp at hm

/-- On a duplicate-free list, a starting handle survives the loop iff its
edit succeeds or it is never attempted. -/
lemma updateLoop_mem_iff (e : Handle → Bool) :
    ∀ (n i : Nat) (msgs : List Handle), msgs.length - i ≤ n → msgs.Nodup →
      ∀ m ∈ msgs, (m ∈ (updateLoop e i msgs []).1 ↔
        (e m = true ∨ m ∉ (updateLoop e i msgs []).2)) := by
  intro n
  induction n with
  | zero =>
    intro i msgs hn _ m hm
    rw [updateLoop_stop e i msgs [] (by omega)]
    simp [hm]
  | succ n ih =>
    intro i msgs hn hnd m hm
    by_cases h : i < msgs.length
    · cases he : e (msgs.get ⟨i, h⟩) with
      | true =>
        rw [updateLoop_step_ok e i msgs [] h he,
          updateLoop_att_split e n (i + 1) msgs ([] ++ [msgs.get ⟨i, h⟩]) (by omega)]
        have hiff := ih (i + 1) msgs (by omega) hnd m hm
        constructor
        · intro hf
          rcases hiff.mp hf with hE | hA
          · exact Or.inl hE
          · by_cases hm0 : m = msgs.get ⟨i, h⟩
            · exact Or.inl (hm0 ▸ he)
            · right
              intro hcon
              rcases List.mem_append.mp hcon with h1 | h2
              · exact hm0 (by simpa using h1)
              · exact hA h2
        · intro hOr
          apply hiff.mpr
          rcases hOr with hE | hNA
          · exact Or.inl hE
          · right
            intro hA
            exact hNA (List.mem_append.mpr (Or.inr hA))
      | false =>
        have hmm : msgs.get ⟨i, h⟩ ∈ msgs := List.get_mem msgs i h
        have hlen := List.length_erase_of_mem hmm
        rw [updateLoop_step_fail e i msgs [] h he,
          updateLoop_att_split e n (i + 1) (msgs.erase (msgs.get ⟨i, h⟩))
            ([] ++ [msgs.get ⟨i, h⟩]) (by omega)]
        have hnd2 : (msgs.erase (msgs.get ⟨i, h⟩)).Nodup := hnd.erase _
        by_cases hm0 : m = msgs.get ⟨i, h⟩
        · have hnotin : m ∉ msgs.erase (msgs.get ⟨i, h⟩) := by
            rw [hm0]
            exact hnd.not_mem_erase
          have hFnot : m ∉ (updateLoop e (i + 1) (msgs.erase (msgs.get ⟨i, h⟩)) []).1 := by
            intro hcon
            exact hnotin
              ((updateLoop_sublist e n (i + 1) (msgs.erase (msgs.get ⟨i, h⟩)) []
                (by omega)).subset hcon)
          constructor
          · intro hcon
            exact absurd hcon hFnot
          · intro hOr
            rcases hOr with hE | hNA
            · rw [hm0, he] at hE
              exact absurd hE (by simp)
            · exact absurd (List.mem_append.mpr (Or.inl (by simp [hm0]))) hNA
        · have hm2 : m ∈ msgs.erase (msgs.get ⟨i, h⟩) :=
            (hnd.mem_erase_iff).mpr ⟨hm0, hm⟩
          have hiff := ih (i + 1) (msgs.erase (msgs.get ⟨i, h⟩)) (by omega) hnd2 m hm2
          constructor
          · intro hf
            rcases hiff.mp hf with hE | hA
            · exact Or.inl hE
            · right
              intro hcon
              rcases List.mem_append.mp hcon with h1 | h2
              · exact hm0 (by simpa using h1)
              · exact hA h2
          · intro hOr
            apply hiff.mpr
            rcases hOr with hE | hNA
            · exact Or.inl hE
            · right
              intro hA
              exact hNA (List.mem_append.mpr (Or.inr hA))
    · rw [updateLoop_stop e i msgs [] h]
      simp [hm]

/-- Occurrence bookkeeping of the loop, valid for arbitrary lists with
duplicates: every failed attempt erases exactly one occurrence of the
attempted handle, and no occurrence of any other handle is ever removed,
so the surviving count of a handle plus its failed-attempt count equals
its starting count. -/
lemma updateLoop_count (e : Handle → Bool) :
    ∀ (n i : Nat) (msgs : List Handle), msgs.length - i ≤ n →
      ∀ m : Handle,
        List.count m (updateLoop e i msgs []).1 +
          (((updateLoop e i msgs []).2).filter (fun x => x == m && !(e x))).length =
          List.count m msgs := by
  intro n
  induction n with
  | zero =>
    intro i msgs hn m
    rw [updateLoop_stop e i msgs [] (by omega)]
    simp
  | succ n ih =>
    intro i msgs hn m
    by_cases h : i < msgs.length
    · cases he : e (msgs.get ⟨i, h⟩) with
      | true =>
        rw [updateLoop_step_ok e i msgs [] h he,
          updateLoop_att_split e n (i + 1) msgs ([] ++ [msgs.get ⟨i, h⟩]) (by omega)]
        show List.count m (updateLoop e (i + 1) msgs []).1 +
          (List.filter (fun x => x == m && !(e x))
            (msgs.get ⟨i, h⟩ :: (updateLoop e (i + 1) msgs []).2)).length =
          List.count m msgs
        rw [List.filter_cons_of_neg (by rw [he]; simp)]
        exact ih (i + 1) msgs (by omega) m
      | false =>
        have hmm : msgs.get ⟨i, h⟩ ∈ msgs := List.get_mem msgs i h
        have hlen := List.length_erase_of_mem hmm
        rw [updateLoop_step_fail e i msgs [] h he,
          updateLoop_att_split e n (i + 1) (msgs.erase (msgs.get ⟨i, h⟩))
            ([] ++ [msgs.get ⟨i, h⟩]) (by omega)]
        show List.count m (updateLoop e (i + 1) (msgs.erase (msgs.get ⟨i, h⟩)) []).1 +
          (List.filter (fun x => x == m && !(e x))
            (msgs.get ⟨i, h⟩ ::
              (updateLoop e (i + 1) (msgs.erase (msgs.get ⟨i, h⟩)) []).2)).length =
          List.count m msgs
        have ihe := ih (i + 1) (msgs.erase (msgs.get ⟨i, h⟩)) (by omega) m
        by_cases hbm : msgs.get ⟨i, h⟩ = m
        · have hmem : m ∈ msgs := hbm ▸ hmm
          have he2 : e m = false := hbm ▸ he
          rw [hbm] at ihe ⊢
          rw [List.filter_cons_of_pos (by rw [he2]; simp)]
          rw [List.count_erase_self] at ihe
          have hpos : 0 < List.count m msgs := List.count_pos_iff.mpr hmem
          simp only [List.length_cons]
          omega
        · rw [List.filter_cons_of_neg (by
            intro hcon
            simp only [Bool.and_eq_true, beq_iff_eq] at hcon
            exact hbm hcon.1)]
          rw [List.count_erase_of_ne (fun hcon => hbm hcon.symm)] at ihe
          exact ihe
    · rw [updateLoop_stop e i msgs [] h]
      simp

/-- C5 counterexample: with the registry `[(1,1), (2,2)]` and an edit that
fails exactly on `(1,1)`, the loop removes `(1,1)` but — because the live
list shrinks under the iterator — never attempts the edit for `(2,2)`,
contradicting the claim that the edit is still attempted for every
remaining handle in the batch. -/
theorem update_messages_skips_after_failure :
    (update_messages_for_duration (fun p => !(p == ((1 : Int), (1 : Int))))
        [(1, 1), (2, 2)]).2 = [(1, 1)] ∧
    ((2, 2) : Handle) ∉
      (update_messages_for_duration (fun p => !(p == ((1 : Int), (1 : Int))))
        [(1, 1), (2, 2)]).2 ∧
    (update_messages_for_duration (fun p => !(p == ((1 : Int), (1 : Int))))
        [(1, 1), (2, 2)]).1 = [(2, 2)] := by
  have h1 : update_messages_for_duration (fun p => !(p == ((1 : Int), (1 : Int))))
      [(1, 1), (2, 2)] = ([(2, 2)], [(1, 1)]) := by
    show updateLoop (fun p => !(p == ((1 : Int), (1 : Int)))) 0 [(1, 1), (2, 2)] []
      = ([(2, 2)], [(1, 1)])
    have step1 := updateLoop_step_fail (fun p => !(p == ((1 : Int), (1 : Int))))
      0 [(1, 1), (2, 2)] [] (by decide) (by decide)
    have step2 : updateLoop (fun p => !(p == ((1 : Int), (1 : Int)))) 1 [(2, 2)] [(1, 1)]
        = ([(2, 2)], [(1, 1)]) :=
      updateLoop_stop _ 1 [(2, 2)] [(1, 1)] (by decide)
    exact step1.trans step2
  rw [h1]
  exact ⟨rfl, by decide, rfl⟩

/-- C5 amended: an edit failure is caught and only prunes the registry.
For every registry list, duplicates included: the surviving list is a
sublist of the original (nothing added or reordered); every attempted
handle comes from the original list; removals match failures exactly —
for each handle, the number of surviving occurrences plus the number of
attempted-and-failed edits of that handle equals its original number of
occurrences, so each failure removes exactly one occurrence of exactly
the failed handle and no other entry is changed; in particular a handle
whose edit succeeds, or that is never attempted, stays registered.
Because the list is mutated during iteration, the handle following a
failed one is skipped (not attempted) in that batch, so not every
remaining handle is edited. -/
theorem update_messages_prunes_failed (editOk : Handle → Bool) (msgs : List Handle) :
    List.Sublist (update_messages_for_duration editOk msgs).1 msgs ∧
    (∀ m ∈ (update_messages_for_duration editOk msgs).2, m ∈ msgs) ∧
    (∀ m : Handle,
      List.count m (update_messages_for_duration editOk msgs).1 +
        (((update_messages_for_duration editOk msgs).2).filter
          (fun x => x == m && !(editOk x))).length = List.count m msgs) ∧
    (∀ m ∈ msgs, (editOk m = true ∨ m ∉ (update_messages_for_duration editOk msgs).2) →
      m ∈ (update_messages_for_duration editOk msgs).1) := by
  refine ⟨updateLoop_sublist editOk msgs.length 0 msgs [] (by omega),
    updateLoop_att_mem editOk msgs.length 0 msgs (by omega),
    fun m => updateLoop_count editOk msgs.length 0 msgs (by omega) m, ?_⟩
  intro m hm hok
  have hcount := updateLoop_count editOk msgs.length 0 msgs (by omega) m
  have hfil : ((update_messages_for_duration editOk msgs).2).filter
      (fun x => x == m && !(editOk x)) = [] := by
    rw [List.filter_eq_nil_iff]
    intro a ha hcon
    simp only [Bool.and_eq_true, beq_iff_eq] at hcon
    obtain ⟨hax, hfail⟩ := hcon
    rcases hok with hE | hNA
    · rw [hax, hE] at hfail
      simp at hfail
    · exact hNA (hax ▸ ha)
  rw [show ((update_messages_for_duration editOk msgs).2).filter
      (fun x => x == m && !(editOk x)) =
      ((updateLoop editOk 0 msgs []).2).filter
        (fun x => x == m && !(editOk x)) from rfl] at hfil
  rw [hfil] at hcount
  simp only [List.length_nil, Nat.add_zero] at hcount
  have hpos : 0 < List.count m (updateLoop editOk 0 msgs []).1 := by
    rw [hcount]
    exact List.count_pos_iff.mpr hm
  exact List.count_pos_iff.mp hpos

/-- Witness for C5 amended: a handle whose edit succeeds survives the
batch in which another handle failed. -/
theorem update_messages_prunes_failed_witness :
    ((2, 2) : Handle) ∈ (update_messages_for_duration
      (fun p => !(p == ((1 : Int), (1 : Int)))) [(1, 1), (2, 2)]).1 := by
  have h := update_messages_prunes_failed (fun p => !(p == ((1 : Int), (1 : Int))))
    [(1, 1), (2, 2)]
  exact h.2.2.2 (2, 2) (by decide) (Or.inl (by decide))

/-- C6: the registry enforces the retention cap.  After `clear_old_messages`
runs, every category holds at most 20 handles; a category holding more
than 20 keeps exactly its 20 most recently registered handles (the final
20 entries, registration appending at the end) in their original order;
a category holding 20 or fewer is unchanged. -/
theorem clear_old_messages_retention_cap (r : Registry) :
    (∀ d : Dur, ((clear_old_messages r).getList d).length ≤ 20) ∧
    (∀ d : Dur, (r.getList d).length ≤ 20 →
      (clear_old_messages r).getList d = r.getList d) ∧
    (∀ d : Dur, (r.getList d).length > 20 →
      (clear_old_messages r).getList d = (r.getList d).drop ((r.getList d).length - 20) ∧
      ((clear_old_messages r).getList d).length = 20) ∧
    (∀ (d : Dur) (h : Handle),
      (register_active_message r d h).getList d = r.getList d ++ [h]) := by
  have hg : ∀ d : Dur, (clear_old_messages r).getList d = clearList (r.getList d) := by
    intro d; cases d <;> rfl
  refine ⟨?_, ?_, ?_, ?_⟩
  · intro d
    rw [hg]
    unfold clearList
    by_cases hl : (r.getList d).length > 20
    · rw [if_pos hl, List.length_drop]; omega
    · rw [if_neg hl]; omega
  · intro d hle
    rw [hg]
    unfold clearList
    rw [if_neg (by omega)]
  · intro d hgt
    rw [hg]
    refine ⟨by rw [clearList, if_pos hgt], ?_⟩
    rw [clearList, if_pos hgt, List.length_drop]
    omega
  · intro d h
    cases d <;> rfl

/-- Witness for C6: a 21-entry category is cut to its last 20 entries and
a 1-entry category is untouched. -/
theorem clear_old_messages_retention_cap_witness :
    (clear_old_messages
        ⟨List.replicate 21 ((7 : Int), (9 : Int)), [((5 : Int), (6 : Int))]⟩).getList .sec30
      = List.replicate 20 ((7 : Int), (9 : Int)) ∧
    (clear_old_messages
        ⟨List.replicate 21 ((7 : Int), (9 : Int)), [((5 : Int), (6 : Int))]⟩).getList .min1
      = [((5 : Int), (6 : Int))] := by
  have h := clear_old_messages_retention_cap
    ⟨List.replicate 21 ((7 : Int), (9 : Int)), [((5 : Int), (6 : Int))]⟩
  constructor
  · rw [(h.2.2.1 .sec30 (by decide)).1]
    decide
  · exact h.2.1 .min1 (by decide)

/-- C7 counterexample: the query parameters are not static — the request
built for limit 10 and duration `"1MIN"` differs from the one built for
limit 1 and duration `"30SEC"` (both `count` and `id` differ). -/
theorem wingo_request_not_static :
    requestOf 10 "1MIN" ≠ requestOf 1 "30SEC" := by
  decide

/-- C7 amended: every call goes to the same fixed endpoint and carries the
fixed `language` parameter, but `count` equals the requested limit and
`id` is 4 exactly when the duration is `"30SEC"` (3 otherwise), so two
calls build identical parameters iff their limits agree and their
durations agree on being `"30SEC"`. -/
theorem wingo_request_shape (limit : Int) (duration : String) :
    (requestOf limit duration).1 = API_URL ∧
    (buildParams limit duration).language = "en" ∧
    (buildParams limit duration).count = limit ∧
    (buildParams limit duration).id = (if duration == "30SEC" then 4 else 3) ∧
    (∀ (limit2 : Int) (duration2 : String),
      buildParams limit duration = buildParams limit2 duration2 ↔
        (limit = limit2 ∧ (duration == "30SEC") = (duration2 == "30SEC"))) := by
  refine ⟨rfl, rfl, rfl, rfl, ?_⟩
  intro limit2 duration2
  constructor
  · intro h
    have h1 := congrArg ReqParams.count h
    have h2 := congrArg ReqParams.id h
    simp only [buildParams] at h1 h2
    refine ⟨h1, ?_⟩
    by_cases hd : duration == "30SEC" <;> by_cases hd2 : duration2 == "30SEC" <;>
      simp [hd, hd2] at h2 ⊢
  · rintro ⟨rfl, h⟩
    simp [buildParams, h]

/-- Witness for C7 amended: two different duration strings that both miss
`"30SEC"` yield identical parameters. -/
theorem wingo_request_shape_witness :
    buildParams 5 "1MIN" = buildParams 5 "ABC" :=
  ((wingo_request_shape 5 "1MIN").2.2.2.2 5 "ABC").mpr ⟨rfl, by decide⟩

/-- C8 counterexample: `prediction_logic.generate_prediction` (one of the
cited strategies) does not pick the opposite of the last value.  With two
stored RED rows (a color streak), a winning intent, and arbitrary random
draws, it predicts RED although the most recent result is RED, whose
opposite per the claim (and per the formatter rule
`nextPredictionOfLast`) is GREEN. -/
theorem generate_prediction_not_opposite :
    generate_prediction_label
        [⟨10, "1 MIN", "RED", "RED", "BIG", "t"⟩, ⟨9, "1 MIN", "RED", "RED", "SMALL", "t"⟩]
        true "SMALL" "SMALL" = "RED" ∧
    (⟨10, "1 MIN", "RED", "RED", "BIG", "t"⟩ : ResultRow).result = "RED" ∧
    nextPredictionOfLast "RED" = "GREEN" ∧
    ("RED" : String) ≠ "GREEN" := by
  decide

/-- C8 amended: the formatter actually used by the bot
(`fixed_prediction.generate_formatted_predictions`) does pick the opposite
of the last value whenever a recent outcome is known — in the web branch
it alternates on the newest web result, in the fallback branch on the
newest stored row — with the opposite mapping RED to GREEN, GREEN to RED,
BIG to SMALL and SMALL to BIG; the pattern-based
`prediction_logic.generate_prediction` does not obey that rule. -/
theorem formatter_prediction_opposite (hm hn : HttpResult) (db : WingoDB)
    (duration : String) (limit : Nat) (randChoice now : String) :
    (∀ w ws, get_wingo_results hm = w :: ws →
      (gfp_core hm hn db duration limit randChoice now).prediction =
        nextPredictionOfLast w.result) ∧
    (get_wingo_results hm = [] →
      ∀ r rs, db_get_latest_results db duration limit = r :: rs →
        (gfp_core hm hn db duration limit randChoice now).prediction =
          nextPredictionOfLast r.result) ∧
    (nextPredictionOfLast "RED" = "GREEN" ∧ nextPredictionOfLast "GREEN" = "RED" ∧
      nextPredictionOfLast "BIG" = "SMALL" ∧ nextPredictionOfLast "SMALL" = "BIG") := by
  refine ⟨?_, ?_, by decide⟩
  · intro w ws hweb
    simp [gfp_core, hweb]
  · intro hweb r rs hlat
    simp [gfp_core, hweb, hlat]

/-- Witness for C8 amended: with the remote fetch down and a local store
whose newest row is RED, the formatter predicts GREEN. -/
theorem formatter_prediction_opposite_witness :
    (gfp_core .exn .exn
        (⟨[⟨805, "1 MIN", "RED", "RED", "BIG", "t"⟩], ⟨[], 1⟩⟩ : WingoDB)
        "1 MIN" 10 "BIG" "u").prediction = "GREEN" := by
  have h := (formatter_prediction_opposite .exn .exn
    (⟨[⟨805, "1 MIN", "RED", "RED", "BIG", "t"⟩], ⟨[], 1⟩⟩ : WingoDB)
    "1 MIN" 10 "BIG" "u").2.1 rfl
    ⟨805, "1 MIN", "RED", "RED", "BIG", "t"⟩ [] (by decide)
  rw [h]
  decide

/-- C9 counterexample: a store whose only row for `"1 MIN"` carries period
id 0 is non-empty for that duration, yet `get_next_period_id` returns 790
rather than the claimed maximum-plus-one (which would be 1): Python `or`
also replaces the falsy maximum 0 by 789. -/
theorem db_get_next_period_id_zero_counterexample :
    (⟨[⟨0, "1 MIN", "RED", "RED", "BIG", "t"⟩], ⟨[], 1⟩⟩ : WingoDB).results.filter
        (fun r => r.duration == "1 MIN") ≠ [] ∧
    maxPeriod ((⟨[⟨0, "1 MIN", "RED", "RED", "BIG", "t"⟩], ⟨[], 1⟩⟩ : WingoDB).results.filter
        (fun r => r.duration == "1 MIN")) = some 0 ∧
    db_get_next_period_id (⟨[⟨0, "1 MIN", "RED", "RED", "BIG", "t"⟩], ⟨[], 1⟩⟩ : WingoDB)
        "1 MIN" = 790 ∧
    (790 : Int) ≠ 0 + 1 := by
  decide

/-- C9 amended: `get_next_period_id` returns 790 when the store has no row
for the duration and also when the maximum period id for the duration is
0 (Python `or` treats both `None` and 0 as falsy); for any other maximum
`m` it returns `m + 1`. -/
theorem db_get_next_period_id_spec (db : WingoDB) (duration : String) :
    (db.results.filter (fun r => r.duration == duration) = [] →
      db_get_next_period_id db duration = 790) ∧
    (maxPeriod (db.results.filter (fun r => r.duration == duration)) = some 0 →
      db_get_next_period_id db duration = 790) ∧
    (∀ m : Int, maxPeriod (db.results.filter (fun r => r.duration == duration)) = some m →
      m ≠ 0 → db_get_next_period_id db duration = m + 1) := by
  refine ⟨?_, ?_, ?_⟩
  · intro h
    simp [db_get_next_period_id, h, maxPeriod]
  · intro h
    simp [db_get_next_period_id, h]
  · intro m hm hne
    simp [db_get_next_period_id, hm, hne]

/-- Witness for C9 amended: with a single row of period id 805 the next
period id is 806. -/
theorem db_get_next_period_id_spec_witness :
    db_get_next_period_id (⟨[⟨805, "1 MIN", "RED", "RED", "BIG", "t"⟩], ⟨[], 1⟩⟩ : WingoDB)
      "1 MIN" = 806 := by
  have h := (db_get_next_period_id_spec
    (⟨[⟨805, "1 MIN", "RED", "RED", "BIG", "t"⟩], ⟨[], 1⟩⟩ : WingoDB) "1 MIN").2.2 805
    (by decide) (by decide)
  simpa using h

/-- C10: over the four labels RED, GREEN, BIG, SMALL, the two-way
substring win test of `update_predictions` agrees with plain equality of
the predicted and actual labels. -/
theorem win_test_iff_equal (p a : String)
    (hp : p ∈ ["RED", "GREEN", "BIG", "SMALL"])
    (ha : a ∈ ["RED", "GREEN", "BIG", "SMALL"]) :
    winTest p a = true ↔ p = a := by
  fin_cases hp <;> fin_cases ha <;> decide

/-- Witness for C10: matching labels win; the substring test does not make
RED win against GREEN. -/
theorem win_test_iff_equal_witness :
    winTest "GREEN" "GREEN" = true :=
  (win_test_iff_equal "GREEN" "GREEN" (by decide) (by decide)).mpr rfl

end Wingo
